import Mathlib

/-!
# Deployment harness of `public-contracts`

A shallow embedding of the two JavaScript sources of the repository:

* `hardhat.config.js`: the exported configuration object, as a function of `process.env`;
* `scripts/deploy.js`: the asynchronous procedure `main` and the top-level
  `main().catch(...)` handler.

`main` is straight-line code that talks to collaborators that live outside the repository
(the `fs` module, `hre.ethers`, `console`, `process`).  Every collaborator call site of `main`
is executed at most once in a run, so the behaviour of the collaborators in one run is a
`World`: for every call site (identified by its source line) whether the call throws or
rejects, and which value it yields when it does not.  The script is then a function from a
world to the trace of collaborator calls it performs, the final file system and the exit code.
-/

namespace Deploy

/-! ## Values -/

/-- The JavaScript values that reach the collaborators: a string, or `undefined`. -/
inductive JSValue where
  | undefined
  | str (s : String)
  deriving DecidableEq, Repr

/-- The content of `process.env`: a variable is absent or holds a string. -/
abbrev Env := String → Option String

/-- Property access `process.env.NAME`: `undefined` when the variable is absent. -/
def Env.get (env : Env) (name : String) : JSValue :=
  match env name with
  | none => JSValue.undefined
  | some s => JSValue.str s

/-- The value thrown by a failing call, or the rejection reason of a promise. -/
abbrev Error := String

/-! ## `hardhat.config.js` -/

/-- The `urls` object of a network entry. -/
structure Urls where
  apiURL : JSValue
  browserURL : JSValue
  deriving DecidableEq, Repr

/-- One entry of `networks`; a key that the source does not write is `none`. -/
structure Network where
  blockGasLimit : Option Nat
  urls : Option Urls
  url : Option JSValue
  accounts : Option (List JSValue)
  deriving DecidableEq, Repr

/-- The `gasReporter` object. -/
structure GasReporter where
  enabled : Bool
  deriving DecidableEq, Repr

/-- The `optimizer` object. -/
structure Optimizer where
  enabled : Bool
  runs : Nat
  deriving DecidableEq, Repr

/-- The `etherscan` object. -/
structure Etherscan where
  apiKey : JSValue
  deriving DecidableEq, Repr

/-- The `contractSizer` object. -/
structure ContractSizer where
  alphaSort : Bool
  disambiguatePaths : Bool
  runOnCompile : Bool
  strict : Bool
  only : List String
  deriving DecidableEq, Repr

/-- The object assigned to `module.exports`; `networks` keeps the order of the keys. -/
structure HardhatUserConfig where
  solidity : String
  gasReporter : GasReporter
  optimizer : Optimizer
  networks : List (String × Network)
  etherscan : Etherscan
  contractSizer : ContractSizer
  deriving DecidableEq, Repr

/-- The value of `module.exports` in `hardhat.config.js`, for the given `process.env`. -/
def hardhatConfig (env : Env) : HardhatUserConfig :=
  let API_KEY := env.get "API_KEY"
  let METAMASK_PRIVATE_KEY := env.get "METAMASK_PRIVATE_KEY"
  let CONFIG_URL_GOERLI := env.get "CONFIG_URL_GOERLI"
  let CONFIG_API_URL_GOERLI := env.get "CONFIG_API_URL_GOERLI"
  let CONFIG_BROWSER_URL_GOERLI := env.get "CONFIG_BROWSER_URL_GOERLI"
  let CONFIG_API_URL_MAINNET := env.get "CONFIG_API_URL_MAINNET"
  let CONFIG_BROWSER_URL_MAINNET := env.get "CONFIG_BROWSER_URL_MAINNET"
  let CONFIG_URL_MAINNET := env.get "CONFIG_URL_MAINNET"
  let CONFIG_API_URL_SEPOLIA := env.get "CONFIG_API_URL_SEPOLIA"
  let CONFIG_BROWSER_URL_SEPOLIA := env.get "CONFIG_BROWSER_URL_SEPOLIA"
  let CONFIG_URL_SEPOLIA := env.get "CONFIG_URL_SEPOLIA"
  let METAMASK_ACCOUNT_deploy_private := env.get "METAMASK_ACCOUNT_deploy_private"
  { solidity := "0.8.9"
    gasReporter := { enabled := true }
    optimizer := { enabled := true, runs := 200 }
    networks :=
      [ ("hardhat",
          { blockGasLimit := some 60000000000, urls := none, url := none, accounts := none }),
        ("goerli",
          { blockGasLimit := none
            urls := some { apiURL := CONFIG_API_URL_GOERLI, browserURL := CONFIG_BROWSER_URL_GOERLI }
            url := some CONFIG_URL_GOERLI
            accounts := some [METAMASK_PRIVATE_KEY] }),
        ("sepolia",
          { blockGasLimit := none
            urls := some { apiURL := CONFIG_API_URL_SEPOLIA, browserURL := CONFIG_BROWSER_URL_SEPOLIA }
            url := some CONFIG_URL_SEPOLIA
            accounts := some [METAMASK_ACCOUNT_deploy_private] }),
        ("mainnet",
          { blockGasLimit := none
            urls := some { apiURL := CONFIG_API_URL_MAINNET, browserURL := CONFIG_BROWSER_URL_MAINNET }
            url := some CONFIG_URL_MAINNET
            accounts := some [METAMASK_ACCOUNT_deploy_private] }),
        ("bsctest",
          { blockGasLimit := none
            urls := some { apiURL := JSValue.str "https://data-seed-prebsc-1-s1.binance.org:8545/"
                           browserURL := JSValue.str "" }
            url := some (JSValue.str "https://data-seed-prebsc-1-s1.binance.org:8545/")
            accounts := some [METAMASK_ACCOUNT_deploy_private] }),
        ("bsc",
          { blockGasLimit := none
            urls := some { apiURL := JSValue.str "https://bsc-dataseed.binance.org/"
                           browserURL := JSValue.str "" }
            url := some (JSValue.str "https://bsc-dataseed.binance.org/")
            accounts := some [METAMASK_ACCOUNT_deploy_private] }),
        ("local",
          { blockGasLimit := none
            urls := some { apiURL := JSValue.str "http://127.0.0.1:8545/"
                           browserURL := JSValue.str "" }
            url := some (JSValue.str "http://127.0.0.1:8545/")
            accounts := some
              [JSValue.str "0xdf57089febbacf7ba0bc227dafbffa9fc08a93fdc68e1e42411a14efcf23656e"] }) ]
    etherscan := { apiKey := API_KEY }
    contractSizer :=
      { alphaSort := true, disambiguatePaths := false, runOnCompile := true, strict := false
        only := [] } }

/-- Lookup of a network entry by its key. -/
def HardhatUserConfig.network (cfg : HardhatUserConfig) (name : String) : Option Network :=
  (cfg.networks.find? (fun kv => kv.1 == name)).map Prod.snd

/-! ## The file system seen through `fs` -/

/-- What a path names. -/
inductive Node where
  | dir
  | file (data : String)
  deriving DecidableEq, Repr

/-- A file system: what each path names, if anything.  Paths are the strings the script
passes to `fs`. -/
abbrev FS := String → Option Node

/-- The function `fs.existsSync`. -/
def FS.existsSync (fs : FS) (path : String) : Bool := (fs path).isSome

/-- The effect of a successful `fs.mkdirSync(path)`. -/
def FS.mkdir (fs : FS) (path : String) : FS :=
  fun q => if q = path then some Node.dir else fs q

/-- The effect of a successful `fs.writeFileSync(path, data)`. -/
def FS.write (fs : FS) (path : String) (data : String) : FS :=
  fun q => if q = path then some (Node.file data) else fs q

/-! ## The deployment collaborator (`hre.ethers`) -/

/-- The object returned by `hre.ethers.getContractFactory(name)`. -/
structure ContractFactory where
  name : String
  deriving DecidableEq, Repr

/-- The object returned by `factory.deploy(...)`: the contract it was created for, the
address computed for the deployment, and the deployment transaction it carries. -/
structure Contract where
  name : String
  address : String
  deployTransaction : String
  deriving DecidableEq, Repr

/-- The object a state-changing contract method such as `addAdmin` resolves with: the
submitted transaction, whose confirmation is awaited with `wait()`. -/
structure TransactionResponse where
  hash : String
  deriving DecidableEq, Repr

/-- The constant `hre.ethers.constants.AddressZero` of the library. -/
def AddressZero : String := "0x0000000000000000000000000000000000000000"

/-- An argument expression of a collaborator call, kept together with its value. -/
inductive Arg where
  | env (name : String) (value : JSValue)
  | address (c : Contract)
  | addressZero
  deriving DecidableEq, Repr

/-- The value an argument evaluates to. -/
def Arg.value : Arg → JSValue
  | Arg.env _ v => v
  | Arg.address c => JSValue.str c.address
  | Arg.addressZero => JSValue.str AddressZero

/-! ## `JSON.stringify` -/

/-- The lower-case hexadecimal digit of a number below 16. -/
def hexDigit (n : Nat) : Char :=
  if n < 10 then Char.ofNat (48 + n) else Char.ofNat (87 + n)

/-- The text of one character inside a JSON string literal: the quotation mark, the reverse
solidus and the control characters are escaped, every other character stands for itself. -/
def JSON.quoteChar (c : Char) : String :=
  if c = Char.ofNat 34 then "\\\""
  else if c = Char.ofNat 92 then "\\\\"
  else if c = Char.ofNat 8 then "\\b"
  else if c = Char.ofNat 12 then "\\f"
  else if c = Char.ofNat 10 then "\\n"
  else if c = Char.ofNat 13 then "\\r"
  else if c = Char.ofNat 9 then "\\t"
  else if c.toNat < 32 then
    "\\u00" ++ String.mk [hexDigit (c.toNat / 16), hexDigit (c.toNat % 16)]
  else String.singleton c

/-- The text of the characters of a string inside a JSON string literal. -/
def JSON.escape : List Char → String
  | [] => ""
  | c :: cs => JSON.quoteChar c ++ JSON.escape cs

/-- The JSON string literal of a string. -/
def JSON.quote (s : String) : String :=
  "\"" ++ JSON.escape s.data ++ "\""

/-- The text of one property of a JSON object that holds a string. -/
def JSON.member (kv : String × String) : String :=
  JSON.quote kv.1 ++ ":" ++ JSON.quote kv.2

/-- The text of the properties of a JSON object, separated by commas. -/
def JSON.members : List (String × String) → String
  | [] => ""
  | [kv] => JSON.member kv
  | kv :: rest => JSON.member kv ++ "," ++ JSON.members rest

/-- The text of a JSON object whose properties hold strings, in the order of the properties. -/
def JSON.object (props : List (String × String)) : String :=
  "\x7b" ++ JSON.members props ++ "\x7d"

/-- The enumerable properties of a contract object: its address and its deployment
transaction.  (`name` records which factory made the object; it is not a property.) -/
def Contract.properties (c : Contract) : List (String × String) :=
  [("address", c.address), ("deployTransaction", c.deployTransaction)]

/-- The function `JSON.stringify` on a contract object. -/
def JSON.stringify (c : Contract) : String := JSON.object c.properties

/-! ## Collaborator calls, traces, worlds -/

/-- The calls the script makes on its collaborators. `wait` is the confirmation wait of a
`TransactionResponse`; `deployed` is the confirmation wait of a deployment. -/
inductive Call where
  | log (msg : String)
  | error (e : Error)
  | existsSync (path : String)
  | mkdirSync (path : String)
  | getContractFactory (name : String)
  | deploy (name : String) (args : List Arg)
  | deployed (c : Contract)
  | addAdmin (c : Contract) (arg : Arg)
  | wait (tx : TransactionResponse)
  | writeFileSync (path : String) (data : String)
  deriving DecidableEq, Repr

/-- A call that was made, and whether it returned normally (`ok`) or threw / rejected. -/
structure Event where
  call : Call
  ok : Bool
  deriving DecidableEq, Repr

/-- The effect of a call that returned normally on the file system. -/
def Call.apply : Call → FS → FS
  | Call.mkdirSync p, fs => fs.mkdir p
  | Call.writeFileSync p d, fs => fs.write p d
  | _, fs => fs

/-- The behaviour of everything outside the script in one run.  Call sites are named by
their source line in `scripts/deploy.js`. -/
structure World where
  /-- The map `process.env` after `dotenv` has run. -/
  env : Env
  /-- The file system when the script starts. -/
  fs : FS
  /-- The error with which the call at a source line throws or rejects, if it does. -/
  fail : Nat → Option Error
  /-- The address of the contract object yielded by the `deploy` call at a source line. -/
  address : Nat → String
  /-- The deployment transaction of that contract object. -/
  deployTransaction : Nat → String
  /-- The hash of the transaction yielded by the `addAdmin` call at a source line. -/
  txHash : Nat → String

/-- The contract object the world yields for the `deploy` call at a source line, made on the
factory of the named contract. -/
def World.contract (w : World) (name : String) (line : Nat) : Contract :=
  { name := name, address := w.address line, deployTransaction := w.deployTransaction line }

/-- The state of a run: file system, calls made so far, and `process.exitCode`
(`none` while it is unset). -/
structure State where
  fs : FS
  trace : List Event
  exitCode : Option Nat

/-- The state in which the script starts. -/
def World.init (w : World) : State :=
  { fs := w.fs, trace := [], exitCode := none }

/-- A computation of the script: from a state to a result or a thrown error, and the state
reached.  A thrown error keeps the state. -/
def Script (α : Type) : Type := State → Except Error α × State

/-- Sequencing of `await`/statement order: an error skips the rest. -/
def Script.bind {α β : Type} (m : Script α) (f : α → Script β) : Script β :=
  fun s =>
    match m s with
    | (Except.ok a, s1) => f a s1
    | (Except.error e, s1) => (Except.error e, s1)

instance : Monad Script where
  pure a := fun s => (Except.ok a, s)
  bind := Script.bind

/-- A fallible collaborator call at a source line: it is recorded in the trace; when it
returns normally its file-system effect takes place, otherwise it throws. -/
def perform (w : World) (line : Nat) (c : Call) : Script Unit :=
  fun s =>
    match w.fail line with
    | none => (Except.ok (), { s with trace := s.trace ++ [⟨c, true⟩], fs := c.apply s.fs })
    | some e => (Except.error e, { s with trace := s.trace ++ [⟨c, false⟩] })

/-- The call `console.log(msg)`. -/
def consoleLog (msg : String) : Script Unit :=
  fun s => (Except.ok (), { s with trace := s.trace ++ [⟨Call.log msg, true⟩] })

/-- The call `fs.existsSync(path)`, which does not throw. -/
def existsSync (path : String) : Script Bool :=
  fun s => (Except.ok (s.fs.existsSync path),
    { s with trace := s.trace ++ [⟨Call.existsSync path, true⟩] })

/-- The call `fs.mkdirSync(path)`. -/
def mkdirSync (w : World) (line : Nat) (path : String) : Script Unit :=
  perform w line (Call.mkdirSync path)

/-- The call `fs.writeFileSync(path, data)`. -/
def writeFileSync (w : World) (line : Nat) (path : String) (data : String) : Script Unit :=
  perform w line (Call.writeFileSync path data)

/-- The call `await hre.ethers.getContractFactory(name)`. -/
def getContractFactory (w : World) (line : Nat) (name : String) : Script ContractFactory := do
  perform w line (Call.getContractFactory name)
  pure { name := name }

/-- The call `await factory.deploy(...args)`. -/
def ContractFactory.deploy (f : ContractFactory) (w : World) (line : Nat) (args : List Arg) :
    Script Contract := do
  perform w line (Call.deploy f.name args)
  pure (w.contract f.name line)

/-- The call `await contract.deployed()`. -/
def Contract.deployed (c : Contract) (w : World) (line : Nat) : Script Unit :=
  perform w line (Call.deployed c)

/-- The call `await contract.addAdmin(arg)`: resolves with the submitted transaction. -/
def Contract.addAdmin (c : Contract) (w : World) (line : Nat) (arg : Arg) :
    Script TransactionResponse := do
  perform w line (Call.addAdmin c arg)
  pure { hash := w.txHash line }

/-! ## `scripts/deploy.js` -/

/-- The function `main` of `scripts/deploy.js`. -/
def main (w : World) : Script Unit := do
  consoleLog "Start deploy..."
  if !(← existsSync "./deploy") then
    mkdirSync w 17 "./deploy"
  let Airdrop ← getContractFactory w 22 "Airdrop"
  let airdrop ← Airdrop.deploy w 23 []
  airdrop.deployed w 24
  consoleLog ("Airdrop " ++ airdrop.address)
  consoleLog "Add admin \"Deployer\" in Airdrop.."
  let _ ← airdrop.addAdmin w 29 (Arg.env "DEPLOYER_ADMIN_MAINNET" (w.env.get "DEPLOYER_ADMIN_MAINNET"))
  consoleLog "Admin added in Airdrop!"
  writeFileSync w 33 "./deploy/Airdrop.json" (JSON.stringify airdrop)
  let Presale ← getContractFactory w 35 "Presale"
  let presale ← Presale.deploy w 36
    [Arg.env "BENEFICIARY_PRESALE_MAINNET" (w.env.get "BENEFICIARY_PRESALE_MAINNET")]
  presale.deployed w 37
  consoleLog ("Presale " ++ presale.address)
  consoleLog "Add admin \"Deployer\" in Presale.."
  let _ ← presale.addAdmin w 42 (Arg.env "DEPLOYER_ADMIN_MAINNET" (w.env.get "DEPLOYER_ADMIN_MAINNET"))
  consoleLog "Admin added in Presale!"
  writeFileSync w 46 "./deploy/Presale.json" (JSON.stringify presale)
  let ERC721Factory ← getContractFactory w 48 "ERC721Factory"
  let erc721Factory ← ERC721Factory.deploy w 49
    [Arg.address presale, Arg.address airdrop, Arg.addressZero]
  erc721Factory.deployed w 55
  consoleLog ("ERC721Factory " ++ erc721Factory.address)
  writeFileSync w 59 "./deploy/ERC721Factory.json" (JSON.stringify erc721Factory)
  let PresalesFactory ← getContractFactory w 61 "PresalesFactory"
  let presalesFactory ← PresalesFactory.deploy w 62 []
  presalesFactory.deployed w 63
  consoleLog ("PresalesFactory " ++ presalesFactory.address)
  writeFileSync w 66 "./deploy/PresalesFactory.json" (JSON.stringify presalesFactory)
  let _ ← presale.addAdmin w 68 (Arg.address presalesFactory)
  consoleLog "Completed deploy!"

/-- The top-level statement `main().catch((error) => ...)`: when `main` rejects, the handler
logs the error and sets `process.exitCode = 1`; the resulting promise is fulfilled. -/
def script (w : World) : Except Error Unit × State :=
  match main w w.init with
  | (Except.ok _, s) => (Except.ok (), s)
  | (Except.error e, s) =>
      (Except.ok (), { s with trace := s.trace ++ [⟨Call.error e, true⟩], exitCode := some 1 })

/-- The exit status of the process: `process.exitCode` when it was set, `0` otherwise. -/
def exitStatus (s : State) : Nat := s.exitCode.getD 0

/-! ## Observations of a run -/

/-- Whether `main` completed (`ok`) or rejected with an error. -/
def World.result (w : World) : Except Error Unit := (main w w.init).1

/-- The calls `main` made, in order. -/
def World.trace (w : World) : List Event := (main w w.init).2.trace

/-- The file system when `main` has completed or rejected. -/
def World.finalFS (w : World) : FS := (main w w.init).2.fs

/-- The same world with no failing call: same environment, file system and yielded values. -/
def World.heal (w : World) : World := { w with fail := fun _ => none }

/-- The file system after the calls of `evs` that returned normally, starting from `fs`. -/
def replay (evs : List Event) (fs : FS) : FS :=
  evs.foldl (fun fs e => if e.ok then e.call.apply fs else fs) fs

/-! ## The statement sequence of `main`

`main` has no loop and one conditional, so a run is the execution, up to the first failing
call, of a list of calls that is known from the world.  `plan` is that list and `exec` runs
it; `main_eq_exec` shows that `main` is `exec` of `plan`. -/

/-- A call that cannot throw: it is only recorded (and applied). -/
def record (c : Call) : Script Unit :=
  fun s => (Except.ok (), { s with trace := s.trace ++ [⟨c, true⟩], fs := c.apply s.fs })

/-- One call of the sequence: its source line when it can throw, and the call. -/
structure Step where
  line : Option Nat
  call : Call

/-- Running one step. -/
def Step.run (w : World) (st : Step) : Script Unit :=
  match st.line with
  | none => record st.call
  | some l => perform w l st.call

/-- Running a sequence of steps, stopping at the first that throws. -/
def exec (w : World) : List Step → Script Unit
  | [] => pure ()
  | st :: rest => do
      st.run w
      exec w rest

/-- A fallible call followed by a continuation. -/
def attempt {β : Type} (w : World) (l : Nat) (c : Call) (s : State)
    (k : State → Except Error β × State) : Except Error β × State :=
  match w.fail l with
  | none => k { s with trace := s.trace ++ [⟨c, true⟩], fs := c.apply s.fs }
  | some e => (Except.error e, { s with trace := s.trace ++ [⟨c, false⟩] })

/-- The calls of `main` from line 22 on. -/
def planTail (w : World) : List Step :=
  [ ⟨some 22, Call.getContractFactory "Airdrop"⟩,
    ⟨some 23, Call.deploy "Airdrop" []⟩,
    ⟨some 24, Call.deployed (w.contract "Airdrop" 23)⟩,
    ⟨none, Call.log ("Airdrop " ++ w.address 23)⟩,
    ⟨none, Call.log "Add admin \"Deployer\" in Airdrop.."⟩,
    ⟨some 29, Call.addAdmin (w.contract "Airdrop" 23)
      (Arg.env "DEPLOYER_ADMIN_MAINNET" (w.env.get "DEPLOYER_ADMIN_MAINNET"))⟩,
    ⟨none, Call.log "Admin added in Airdrop!"⟩,
    ⟨some 33, Call.writeFileSync "./deploy/Airdrop.json" (JSON.stringify (w.contract "Airdrop" 23))⟩,
    ⟨some 35, Call.getContractFactory "Presale"⟩,
    ⟨some 36, Call.deploy "Presale"
      [Arg.env "BENEFICIARY_PRESALE_MAINNET" (w.env.get "BENEFICIARY_PRESALE_MAINNET")]⟩,
    ⟨some 37, Call.deployed (w.contract "Presale" 36)⟩,
    ⟨none, Call.log ("Presale " ++ w.address 36)⟩,
    ⟨none, Call.log "Add admin \"Deployer\" in Presale.."⟩,
    ⟨some 42, Call.addAdmin (w.contract "Presale" 36)
      (Arg.env "DEPLOYER_ADMIN_MAINNET" (w.env.get "DEPLOYER_ADMIN_MAINNET"))⟩,
    ⟨none, Call.log "Admin added in Presale!"⟩,
    ⟨some 46, Call.writeFileSync "./deploy/Presale.json" (JSON.stringify (w.contract "Presale" 36))⟩,
    ⟨some 48, Call.getContractFactory "ERC721Factory"⟩,
    ⟨some 49, Call.deploy "ERC721Factory"
      [Arg.address (w.contract "Presale" 36), Arg.address (w.contract "Airdrop" 23),
        Arg.addressZero]⟩,
    ⟨some 55, Call.deployed (w.contract "ERC721Factory" 49)⟩,
    ⟨none, Call.log ("ERC721Factory " ++ w.address 49)⟩,
    ⟨some 59, Call.writeFileSync "./deploy/ERC721Factory.json"
      (JSON.stringify (w.contract "ERC721Factory" 49))⟩,
    ⟨some 61, Call.getContractFactory "PresalesFactory"⟩,
    ⟨some 62, Call.deploy "PresalesFactory" []⟩,
    ⟨some 63, Call.deployed (w.contract "PresalesFactory" 62)⟩,
    ⟨none, Call.log ("PresalesFactory " ++ w.address 62)⟩,
    ⟨some 66, Call.writeFileSync "./deploy/PresalesFactory.json"
      (JSON.stringify (w.contract "PresalesFactory" 62))⟩,
    ⟨some 68, Call.addAdmin (w.contract "Presale" 36)
      (Arg.address (w.contract "PresalesFactory" 62))⟩,
    ⟨none, Call.log "Completed deploy!"⟩ ]

/-- The calls of `main` up to line 18, given whether `./deploy` exists. -/
def planHead (dirExists : Bool) : List Step :=
  [ ⟨none, Call.log "Start deploy..."⟩, ⟨none, Call.existsSync "./deploy"⟩ ] ++
  (if dirExists then [] else [⟨some 17, Call.mkdirSync "./deploy"⟩])

/-- The calls of `main` when it starts on the file system `fs`. -/
def plan (w : World) (fs : FS) : List Step :=
  planHead (fs.existsSync "./deploy") ++ planTail w

/-- The event of a step that returned normally. -/
def okEvent (st : Step) : Event := ⟨st.call, true⟩

/-- The events of a sequence in which every step returned normally. -/
def allOk (steps : List Step) : List Event := steps.map okEvent

/-- The events of a run of a sequence: up to and including the first step that throws. -/
def events (w : World) : List Step → List Event
  | [] => []
  | st :: rest =>
      match st.line.bind w.fail with
      | none => ⟨st.call, true⟩ :: events w rest
      | some _ => [⟨st.call, false⟩]

/-- The result of a run of a sequence: the error of the first step that throws. -/
def outcome (w : World) : List Step → Except Error Unit
  | [] => Except.ok ()
  | st :: rest =>
      match st.line.bind w.fail with
      | none => outcome w rest
      | some e => Except.error e

/-- The property `Q` holds of every element of `t` together with the elements before it
(`pre` holds the elements already passed). -/
def splitsAll {α : Type} (Q : List α → α → Prop) : List α → List α → Prop
  | _, [] => True
  | pre, x :: xs => Q pre x ∧ splitsAll Q (pre ++ [x]) xs

/-! ## Vocabulary of the properties -/

/-- The calls that act on the chain or on the file system; `console` output and the
look-up of a contract factory are not among them. -/
def Call.isEffect : Call → Bool
  | Call.existsSync _ => true
  | Call.mkdirSync _ => true
  | Call.deploy _ _ => true
  | Call.deployed _ => true
  | Call.addAdmin _ _ => true
  | Call.wait _ => true
  | Call.writeFileSync _ _ => true
  | _ => false

/-- The path and data of a file write that returned normally. -/
def Event.written : Event → Option (String × String)
  | ⟨Call.writeFileSync p d, true⟩ => some (p, d)
  | _ => none

/-- The contract whose address an argument expression reads, if it reads one. -/
def Arg.contract? : Arg → Option Contract
  | Arg.address c => some c
  | _ => none

/-- The contracts a call relies on: those whose address is a constructor argument of a
deployment, the target of a role grant, and the contract whose address is granted. -/
def Call.reliesOn : Call → List Contract
  | Call.deploy _ args => args.filterMap Arg.contract?
  | Call.addAdmin c arg => c :: arg.contract?.toList
  | _ => []

/-- The path a call creates or overwrites when it returns normally. -/
def Call.target : Call → Option String
  | Call.mkdirSync p => some p
  | Call.writeFileSync p _ => some p
  | _ => none

/-- The target of a role grant whose argument is read from the environment. -/
def Call.envGrantTarget : Call → Option Contract
  | Call.addAdmin c (Arg.env _ _) => some c
  | _ => none

/-- The file in which the deployment result of the named contract is stored. -/
def deployFile (name : String) : String := "./deploy/" ++ name ++ ".json"

/-- The four deployment files. -/
def deployFiles : List String :=
  [ "./deploy/Airdrop.json", "./deploy/Presale.json", "./deploy/ERC721Factory.json",
    "./deploy/PresalesFactory.json" ]

/-! ## Concrete worlds -/

/-- A run on an empty file system with both variables set in which no call fails. -/
def happyWorld : World :=
  { env := fun k =>
      if k = "DEPLOYER_ADMIN_MAINNET" then some "0xAD"
      else if k = "BENEFICIARY_PRESALE_MAINNET" then some "0xBE" else none
    fs := fun _ => none
    fail := fun _ => none
    address := fun l =>
      if l = 23 then "0xA1" else if l = 36 then "0xB2" else if l = 49 then "0xC3" else "0xD4"
    deployTransaction := fun _ => "0x7a"
    txHash := fun _ => "0x7b" }

/-- As `happyWorld`, but the role grant of line 68 is rejected. -/
def lateGrantWorld : World := { happyWorld with fail := fun l => if l = 68 then some "reverted" else none }

/-- As `happyWorld`, but the deployment of Airdrop (line 23) is rejected. -/
def airdropFailWorld : World :=
  { happyWorld with fail := fun l => if l = 23 then some "insufficient funds" else none }

/-- As `happyWorld`, but the role grant on Presale of line 42 is rejected. -/
def presaleGrantFailWorld : World :=
  { happyWorld with fail := fun l => if l = 42 then some "reverted" else none }

/-- As `happyWorld`, but every `deploy` call yields a contract object with an empty address. -/
def emptyAddressWorld : World := { happyWorld with address := fun _ => "" }

/-- As `happyWorld`, but no environment variable is set. -/
def bareWorld : World := { happyWorld with env := fun _ => none }

/-- As `happyWorld`, but `./deploy` exists and holds a file of an earlier run and another
file. -/
def existingDirWorld : World :=
  { happyWorld with
    fs := fun p =>
      if p = "./deploy" then some Node.dir
      else if p = "./deploy/Airdrop.json" then some (Node.file "stale")
      else if p = "./deploy/notes.txt" then some (Node.file "keep") else none }

/-! ## Lemmas on the statement sequence -/

theorem bind_perform {β : Type} (w : World) (l : Nat) (c : Call) (f : Unit → Script β) :
    Script.bind (perform w l c) f = fun s => attempt w l c s (f ()) := by
  funext s
  unfold Script.bind perform attempt
  cases w.fail l <;> rfl

theorem bind_getContractFactory {β : Type} (w : World) (l : Nat) (n : String)
    (f : ContractFactory → Script β) :
    Script.bind (getContractFactory w l n) f
      = fun s => attempt w l (Call.getContractFactory n) s (f { name := n }) := by
  funext s
  unfold Script.bind getContractFactory perform attempt
  simp only [bind, Script.bind, pure]
  cases w.fail l <;> rfl

theorem bind_deploy {β : Type} (w : World) (l : Nat) (fac : ContractFactory) (args : List Arg)
    (f : Contract → Script β) :
    Script.bind (fac.deploy w l args) f
      = fun s => attempt w l (Call.deploy fac.name args) s (f (w.contract fac.name l)) := by
  funext s
  unfold Script.bind ContractFactory.deploy perform attempt
  simp only [bind, Script.bind, pure]
  cases w.fail l <;> rfl

theorem bind_addAdmin {β : Type} (w : World) (l : Nat) (c : Contract) (arg : Arg)
    (f : TransactionResponse → Script β) :
    Script.bind (c.addAdmin w l arg) f
      = fun s => attempt w l (Call.addAdmin c arg) s (f { hash := w.txHash l }) := by
  funext s
  unfold Script.bind Contract.addAdmin perform attempt
  simp only [bind, Script.bind, pure]
  cases w.fail l <;> rfl

theorem bind_consoleLog {β : Type} (m : String) (f : Unit → Script β) :
    Script.bind (consoleLog m) f
      = fun s => f () { s with trace := s.trace ++ [⟨Call.log m, true⟩] } := rfl

theorem bind_existsSync {β : Type} (p : String) (f : Bool → Script β) :
    Script.bind (existsSync p) f
      = fun s => f (s.fs.existsSync p)
          { s with trace := s.trace ++ [⟨Call.existsSync p, true⟩] } := rfl

theorem bind_pure {α β : Type} (a : α) (f : α → Script β) :
    Script.bind (pure a) f = f a := rfl

theorem exec_cons_some (w : World) (l : Nat) (c : Call) (rest : List Step) :
    exec w (⟨some l, c⟩ :: rest) = fun s => attempt w l c s (exec w rest) := by
  show Script.bind (perform w l c) (fun _ => exec w rest) = _
  exact bind_perform w l c _

theorem exec_cons_none (w : World) (c : Call) (rest : List Step) :
    exec w (⟨none, c⟩ :: rest)
      = fun s => exec w rest
          { s with trace := s.trace ++ [⟨c, true⟩], fs := c.apply s.fs } := rfl

theorem exec_nil (w : World) : exec w [] = fun s => (Except.ok (), s) := rfl

/-- The procedure `main` is the execution of its statement sequence. -/
theorem main_eq_exec (w : World) (s : State) : main w s = exec w (plan w s.fs) s := by
  have key : ∀ b : Bool, s.fs.existsSync "./deploy" = b →
      main w s = exec w (planHead b ++ planTail w) s := by
    intro b hb
    cases b
    · show main w s = exec w ([ ⟨none, Call.log "Start deploy..."⟩,
        ⟨none, Call.existsSync "./deploy"⟩, ⟨some 17, Call.mkdirSync "./deploy"⟩] ++ planTail w) s
      simp only [main, bind, Contract.deployed, writeFileSync, mkdirSync]
      simp only [planTail, List.cons_append, List.nil_append, exec_cons_some, exec_cons_none,
        exec_nil]
      simp only [bind_consoleLog, bind_existsSync, hb, Bool.not_false, Bool.not_true,
        Bool.false_eq_true, if_true, if_false, bind_perform, bind_getContractFactory,
        bind_deploy, bind_addAdmin, bind_pure]
      rfl
    · show main w s = exec w ([ ⟨none, Call.log "Start deploy..."⟩,
        ⟨none, Call.existsSync "./deploy"⟩] ++ planTail w) s
      simp only [main, bind, Contract.deployed, writeFileSync, mkdirSync]
      simp only [planTail, List.cons_append, List.nil_append, exec_cons_some, exec_cons_none,
        exec_nil]
      simp only [bind_consoleLog, bind_existsSync, hb, Bool.not_false, Bool.not_true,
        Bool.false_eq_true, if_true, if_false, bind_perform, bind_getContractFactory,
        bind_deploy, bind_addAdmin, bind_pure]
      rfl
  exact key _ rfl

theorem replay_cons (e : Event) (evs : List Event) (fs : FS) :
    replay (e :: evs) fs = replay evs (if e.ok then e.call.apply fs else fs) := rfl

theorem replay_nil (fs : FS) : replay [] fs = fs := rfl

theorem replay_append (l1 l2 : List Event) (fs : FS) :
    replay (l1 ++ l2) fs = replay l2 (replay l1 fs) := by
  simp [replay, List.foldl_append]

/-- Running a sequence yields its `outcome`, appends its `events` to the trace and replays
them on the file system. -/
theorem exec_eq (w : World) (steps : List Step) (s : State) :
    exec w steps s = (outcome w steps,
      { fs := replay (events w steps) s.fs, trace := s.trace ++ events w steps,
        exitCode := s.exitCode }) := by
  induction steps generalizing s with
  | nil => simp [exec_nil, outcome, events, replay]
  | cons st rest ih =>
    obtain ⟨line, c⟩ := st
    cases line with
    | none =>
      rw [exec_cons_none]
      simp [ih, outcome, events, Option.bind, replay_cons]
    | some l =>
      rw [exec_cons_some]
      simp only [attempt, outcome, events, Option.bind]
      cases h : w.fail l with
      | none => simp [ih, replay_cons]
      | some e => simp [replay]

theorem result_eq (w : World) : w.result = outcome w (plan w w.fs) := by
  simp [World.result, main_eq_exec, exec_eq, World.init]

theorem trace_eq (w : World) : w.trace = events w (plan w w.fs) := by
  simp [World.trace, main_eq_exec, exec_eq, World.init]

theorem finalFS_eq (w : World) : w.finalFS = replay w.trace w.fs := by
  simp [World.finalFS, World.trace, main_eq_exec, exec_eq, World.init]

theorem plan_heal (w : World) (fs : FS) : plan w.heal fs = plan w fs := rfl

theorem events_heal (w : World) (steps : List Step) : events w.heal steps = allOk steps := by
  induction steps with
  | nil => rfl
  | cons st rest ih =>
    obtain ⟨line, c⟩ := st
    cases line <;> simp [events, allOk, okEvent, World.heal, Option.bind] <;>
      simpa [allOk, okEvent, World.heal] using ih

theorem outcome_heal (w : World) (steps : List Step) : outcome w.heal steps = Except.ok () := by
  induction steps with
  | nil => rfl
  | cons st rest ih =>
    obtain ⟨line, c⟩ := st
    cases line <;> simp [outcome, World.heal, Option.bind] <;>
      simpa [World.heal] using ih

/-- A sequence completes exactly when every event of its run returned normally. -/
theorem outcome_ok_iff (w : World) (steps : List Step) :
    outcome w steps = Except.ok () ↔ ∀ e ∈ events w steps, e.ok = true := by
  induction steps with
  | nil => simp [outcome, events]
  | cons st rest ih =>
    simp only [outcome, events]
    cases h : st.line.bind w.fail with
    | none => simp [ih]
    | some e => simp

/-- A sequence that completes produces the events of all its steps. -/
theorem events_of_ok (w : World) (steps : List Step) (h : outcome w steps = Except.ok ()) :
    events w steps = allOk steps := by
  induction steps with
  | nil => rfl
  | cons st rest ih =>
    simp only [outcome, events] at h ⊢
    cases hf : st.line.bind w.fail with
    | none =>
      rw [hf] at h
      simp [allOk, okEvent] at ih ⊢
      exact ih h
    | some e =>
      rw [hf] at h
      simp at h

/-- Every event of a run is, with what precedes it, an initial part of the completed
sequence; what precedes it returned normally, and a failed event is the last one. -/
theorem events_split (w : World) (steps : List Step) (l1 l2 : List Event) (ev : Event)
    (h : events w steps = l1 ++ ev :: l2) :
    (∃ l3, allOk steps = l1 ++ ⟨ev.call, true⟩ :: l3) ∧ (∀ e ∈ l1, e.ok = true) ∧
      (ev.ok = false → l2 = []) := by
  induction steps generalizing l1 with
  | nil => simp [events] at h
  | cons st rest ih =>
    simp only [events] at h
    cases hf : st.line.bind w.fail with
    | none =>
      rw [hf] at h
      cases l1 with
      | nil =>
        simp only [List.nil_append, List.cons.injEq] at h
        obtain ⟨h1, h2⟩ := h
        subst h1
        refine ⟨⟨allOk rest, by simp [allOk, okEvent]⟩, by simp, by simp⟩
      | cons a l1t =>
        simp only [List.cons_append, List.cons.injEq] at h
        obtain ⟨h1, h2⟩ := h
        obtain ⟨⟨l3, h3⟩, h4, h5⟩ := ih l1t h2
        subst h1
        refine ⟨⟨l3, ?_⟩, ?_, h5⟩
        · simp only [allOk, List.map_cons, okEvent, List.cons_append, List.cons.injEq, true_and]
          exact h3
        · intro e he
          rcases List.mem_cons.1 he with rfl | he
          · rfl
          · exact h4 e he
    | some e =>
      rw [hf] at h
      cases l1 with
      | nil =>
        simp only [List.nil_append, List.cons.injEq] at h
        obtain ⟨h1, h2⟩ := h
        subst h1
        refine ⟨⟨allOk rest, by simp [allOk, okEvent]⟩, by simp, fun _ => h2.symm⟩
      | cons a l1t =>
        simp only [List.cons_append, List.cons.injEq] at h
        obtain ⟨_, h2⟩ := h
        simp at h2

/-- A run that fails is the completed sequence cut at the failing step, whose event is
marked as failed. -/
theorem events_cut (w : World) (steps : List Step) (e : Error)
    (h : outcome w steps = Except.error e) :
    ∃ k c, (allOk steps).get? k = some ⟨c, true⟩ ∧
      events w steps = (allOk steps).take k ++ [⟨c, false⟩] := by
  induction steps with
  | nil => simp [outcome] at h
  | cons st rest ih =>
    simp only [outcome, events] at h ⊢
    cases hf : st.line.bind w.fail with
    | none =>
      rw [hf] at h
      obtain ⟨k, c, h1, h2⟩ := ih h
      refine ⟨k + 1, c, ?_, ?_⟩
      · simpa [allOk] using h1
      · simp [allOk, okEvent] at h2 ⊢
        exact h2
    | some e1 =>
      exact ⟨0, st.call, by simp [allOk, okEvent], by simp⟩

/-- Quantifying over the ways to split a list at an element is `splitsAll`. -/
theorem splitsAll_iff {α : Type} (Q : List α → α → Prop) (pre t : List α) :
    splitsAll Q pre t ↔ ∀ l1 x l2, t = l1 ++ x :: l2 → Q (pre ++ l1) x := by
  induction t generalizing pre with
  | nil => simp [splitsAll]
  | cons a t ih =>
    simp only [splitsAll, ih]
    constructor
    · rintro ⟨h1, h2⟩ l1 x l2 h
      cases l1 with
      | nil =>
        simp only [List.nil_append, List.cons.injEq] at h
        obtain ⟨rfl, _⟩ := h
        simpa using h1
      | cons b l1t =>
        simp only [List.cons_append, List.cons.injEq] at h
        obtain ⟨rfl, h⟩ := h
        simpa using h2 l1t x l2 h
    · intro h
      refine ⟨by simpa using h [] a t rfl, ?_⟩
      intro l1 x l2 hl
      simpa using h (a :: l1) x l2 (by simp [hl])

/-! ## The successful run -/

/-- The trace of a run of `main` that completes. -/
theorem trace_of_ok (w : World) (h : w.result = Except.ok ()) :
    w.trace = allOk (plan w w.fs) := by
  rw [result_eq] at h
  rw [trace_eq, events_of_ok w _ h]

/-- C10. In a run of `main` that completes, the calls that act on the chain or the file
system are exactly, in this order: the existence check of `./deploy` (followed by its creation
when it is absent); deploy Airdrop with no argument, await `deployed`; `addAdmin` on Airdrop
with the configured admin; write `Airdrop.json`; deploy Presale with the beneficiary, await
`deployed`; `addAdmin` on Presale with the configured admin; write `Presale.json`; deploy
ERC721Factory with (Presale address, Airdrop address, zero address), await `deployed`; write
`ERC721Factory.json`; deploy PresalesFactory with no argument, await `deployed`; write
`PresalesFactory.json`; `addAdmin` on Presale with the PresalesFactory address.  The trace is
a sequence and every one of these calls has returned before the next is made. -/
theorem successful_run_effect_sequence (w : World) (h : w.result = Except.ok ()) :
    w.trace.filter (fun e => e.call.isEffect) =
      [⟨Call.existsSync "./deploy", true⟩] ++
      (if w.fs.existsSync "./deploy" then [] else [⟨Call.mkdirSync "./deploy", true⟩]) ++
      [ ⟨Call.deploy "Airdrop" [], true⟩,
        ⟨Call.deployed (w.contract "Airdrop" 23), true⟩,
        ⟨Call.addAdmin (w.contract "Airdrop" 23)
          (Arg.env "DEPLOYER_ADMIN_MAINNET" (w.env.get "DEPLOYER_ADMIN_MAINNET")), true⟩,
        ⟨Call.writeFileSync "./deploy/Airdrop.json" (JSON.stringify (w.contract "Airdrop" 23)), true⟩,
        ⟨Call.deploy "Presale"
          [Arg.env "BENEFICIARY_PRESALE_MAINNET" (w.env.get "BENEFICIARY_PRESALE_MAINNET")], true⟩,
        ⟨Call.deployed (w.contract "Presale" 36), true⟩,
        ⟨Call.addAdmin (w.contract "Presale" 36)
          (Arg.env "DEPLOYER_ADMIN_MAINNET" (w.env.get "DEPLOYER_ADMIN_MAINNET")), true⟩,
        ⟨Call.writeFileSync "./deploy/Presale.json" (JSON.stringify (w.contract "Presale" 36)), true⟩,
        ⟨Call.deploy "ERC721Factory"
          [Arg.address (w.contract "Presale" 36), Arg.address (w.contract "Airdrop" 23),
            Arg.addressZero], true⟩,
        ⟨Call.deployed (w.contract "ERC721Factory" 49), true⟩,
        ⟨Call.writeFileSync "./deploy/ERC721Factory.json"
          (JSON.stringify (w.contract "ERC721Factory" 49)), true⟩,
        ⟨Call.deploy "PresalesFactory" [], true⟩,
        ⟨Call.deployed (w.contract "PresalesFactory" 62), true⟩,
        ⟨Call.writeFileSync "./deploy/PresalesFactory.json"
          (JSON.stringify (w.contract "PresalesFactory" 62)), true⟩,
        ⟨Call.addAdmin (w.contract "Presale" 36)
          (Arg.address (w.contract "PresalesFactory" 62)), true⟩ ] := by
  rw [trace_of_ok w h]
  cases hb : w.fs.existsSync "./deploy" <;>
    simp [plan, planHead, planTail, allOk, okEvent, hb, Call.isEffect]

/-- The run `happyWorld` completes, and its effect sequence. -/
theorem successful_run_effect_sequence_witness :
    happyWorld.result = Except.ok () ∧
    happyWorld.trace.filter (fun e => e.call.isEffect) =
      [ ⟨Call.existsSync "./deploy", true⟩,
        ⟨Call.mkdirSync "./deploy", true⟩,
        ⟨Call.deploy "Airdrop" [], true⟩,
        ⟨Call.deployed ⟨"Airdrop", "0xA1", "0x7a"⟩, true⟩,
        ⟨Call.addAdmin ⟨"Airdrop", "0xA1", "0x7a"⟩
          (Arg.env "DEPLOYER_ADMIN_MAINNET" (JSValue.str "0xAD")), true⟩,
        ⟨Call.writeFileSync "./deploy/Airdrop.json" "\x7b\"address\":\"0xA1\",\"deployTransaction\":\"0x7a\"\x7d", true⟩,
        ⟨Call.deploy "Presale" [Arg.env "BENEFICIARY_PRESALE_MAINNET" (JSValue.str "0xBE")], true⟩,
        ⟨Call.deployed ⟨"Presale", "0xB2", "0x7a"⟩, true⟩,
        ⟨Call.addAdmin ⟨"Presale", "0xB2", "0x7a"⟩
          (Arg.env "DEPLOYER_ADMIN_MAINNET" (JSValue.str "0xAD")), true⟩,
        ⟨Call.writeFileSync "./deploy/Presale.json" "\x7b\"address\":\"0xB2\",\"deployTransaction\":\"0x7a\"\x7d", true⟩,
        ⟨Call.deploy "ERC721Factory"
          [Arg.address ⟨"Presale", "0xB2", "0x7a"⟩, Arg.address ⟨"Airdrop", "0xA1", "0x7a"⟩,
            Arg.addressZero], true⟩,
        ⟨Call.deployed ⟨"ERC721Factory", "0xC3", "0x7a"⟩, true⟩,
        ⟨Call.writeFileSync "./deploy/ERC721Factory.json" "\x7b\"address\":\"0xC3\",\"deployTransaction\":\"0x7a\"\x7d", true⟩,
        ⟨Call.deploy "PresalesFactory" [], true⟩,
        ⟨Call.deployed ⟨"PresalesFactory", "0xD4", "0x7a"⟩, true⟩,
        ⟨Call.writeFileSync "./deploy/PresalesFactory.json" "\x7b\"address\":\"0xD4\",\"deployTransaction\":\"0x7a\"\x7d", true⟩,
        ⟨Call.addAdmin ⟨"Presale", "0xB2", "0x7a"⟩
          (Arg.address ⟨"PresalesFactory", "0xD4", "0x7a"⟩), true⟩ ] :=
  ⟨rfl, successful_run_effect_sequence happyWorld rfl⟩

/-- Every property of an event and the events before it that holds along the completed
sequence holds in every run. -/
theorem trace_split (w : World) (Q : List Event → Call → Prop)
    (hQ : ∀ b : Bool, splitsAll (fun pre x => Q pre x.call) [] (allOk (planHead b ++ planTail w)))
    (l1 l2 : List Event) (ev : Event) (h : w.trace = l1 ++ ev :: l2) :
    Q l1 ev.call ∧ (∀ e ∈ l1, e.ok = true) ∧ (ev.ok = false → l2 = []) := by
  rw [trace_eq] at h
  obtain ⟨⟨l3, h3⟩, h4, h5⟩ := events_split w _ l1 l2 ev h
  refine ⟨?_, h4, h5⟩
  have := (splitsAll_iff (fun pre x => Q pre x.call) [] _).1 (hQ (w.fs.existsSync "./deploy"))
    l1 ⟨ev.call, true⟩ l3 h3
  simpa using this

/-- C7. In every run of `main`, completed or not: whenever a call uses the address of a
contract as a constructor argument of a deployment or as the argument of a role grant, or is
a role grant on a contract, the `deployed()` confirmation of that contract has returned
normally earlier in the run. -/
theorem address_used_after_deployed (w : World) (l1 l2 : List Event) (ev : Event)
    (h : w.trace = l1 ++ ev :: l2) :
    ∀ c ∈ ev.call.reliesOn, ⟨Call.deployed c, true⟩ ∈ l1 := by
  refine (trace_split w (fun pre x => ∀ c ∈ x.reliesOn, ⟨Call.deployed c, true⟩ ∈ pre) ?_
    l1 l2 ev h).1
  intro b
  cases b <;>
    simp [splitsAll, planHead, planTail, allOk, okEvent, Call.reliesOn, Arg.contract?]

/-- In `happyWorld` the last role grant relies on Presale and PresalesFactory, both confirmed
before it. -/
theorem address_used_after_deployed_witness :
    happyWorld.trace = happyWorld.trace.take 29 ++
      ⟨Call.addAdmin ⟨"Presale", "0xB2", "0x7a"⟩
        (Arg.address ⟨"PresalesFactory", "0xD4", "0x7a"⟩), true⟩ ::
      [⟨Call.log "Completed deploy!", true⟩] ∧
    ∀ c ∈ [(⟨"Presale", "0xB2", "0x7a"⟩ : Contract), ⟨"PresalesFactory", "0xD4", "0x7a"⟩],
      ⟨Call.deployed c, true⟩ ∈ happyWorld.trace.take 29 :=
  ⟨rfl, address_used_after_deployed happyWorld (happyWorld.trace.take 29)
    [⟨Call.log "Completed deploy!", true⟩]
    ⟨Call.addAdmin ⟨"Presale", "0xB2", "0x7a"⟩
      (Arg.address ⟨"PresalesFactory", "0xD4", "0x7a"⟩), true⟩ rfl⟩

/-- C2. In every run of `main` that reaches the deployment of ERC721Factory, that `deploy`
call receives exactly three arguments, in this order: the address of the Presale contract,
the address of the Airdrop contract, and the zero address.  The two contracts are the ones
deployed and confirmed earlier in the same run, and the ones whose serialization was written
to `Presale.json` and `Airdrop.json` earlier in that run (no other data was written there). -/
theorem erc721Factory_constructor_arguments (w : World) (l1 l2 : List Event) (ev : Event)
    (args : List Arg) (h : w.trace = l1 ++ ev :: l2)
    (hev : ev.call = Call.deploy "ERC721Factory" args) :
    args = [Arg.address (w.contract "Presale" 36), Arg.address (w.contract "Airdrop" 23),
      Arg.addressZero] ∧
    args.map Arg.value = [JSValue.str (w.address 36), JSValue.str (w.address 23),
      JSValue.str AddressZero] ∧
    ⟨Call.deployed (w.contract "Presale" 36), true⟩ ∈ l1 ∧
    ⟨Call.deployed (w.contract "Airdrop" 23), true⟩ ∈ l1 ∧
    l1.filterMap Event.written =
      [ ("./deploy/Airdrop.json", JSON.stringify (w.contract "Airdrop" 23)),
        ("./deploy/Presale.json", JSON.stringify (w.contract "Presale" 36)) ] := by
  have hsplit := trace_split w (fun pre x => ∀ args, x = Call.deploy "ERC721Factory" args →
      args = [Arg.address (w.contract "Presale" 36), Arg.address (w.contract "Airdrop" 23),
        Arg.addressZero] ∧
      args.map Arg.value = [JSValue.str (w.address 36), JSValue.str (w.address 23),
        JSValue.str AddressZero] ∧
      ⟨Call.deployed (w.contract "Presale" 36), true⟩ ∈ pre ∧
      ⟨Call.deployed (w.contract "Airdrop" 23), true⟩ ∈ pre ∧
      pre.filterMap Event.written =
        [ ("./deploy/Airdrop.json", JSON.stringify (w.contract "Airdrop" 23)),
          ("./deploy/Presale.json", JSON.stringify (w.contract "Presale" 36)) ]) ?_ l1 l2 ev h
  · exact hsplit.1 args hev
  · intro b
    cases b <;>
      simp [splitsAll, planHead, planTail, allOk, okEvent, Event.written, Arg.value,
        World.contract]

/-- In `happyWorld` the deployment of ERC721Factory is the 21st call, after both writes. -/
theorem erc721Factory_constructor_arguments_witness :
    happyWorld.trace = happyWorld.trace.take 20 ++
      ⟨Call.deploy "ERC721Factory"
        [Arg.address ⟨"Presale", "0xB2", "0x7a"⟩, Arg.address ⟨"Airdrop", "0xA1", "0x7a"⟩,
          Arg.addressZero], true⟩ :: happyWorld.trace.drop 21 ∧
    (happyWorld.trace.take 20).filterMap Event.written =
      [ ("./deploy/Airdrop.json", "\x7b\"address\":\"0xA1\",\"deployTransaction\":\"0x7a\"\x7d"), ("./deploy/Presale.json", "\x7b\"address\":\"0xB2\",\"deployTransaction\":\"0x7a\"\x7d") ] :=
  ⟨rfl, (erc721Factory_constructor_arguments happyWorld (happyWorld.trace.take 20)
    (happyWorld.trace.drop 21)
    ⟨Call.deploy "ERC721Factory"
      [Arg.address ⟨"Presale", "0xB2", "0x7a"⟩, Arg.address ⟨"Airdrop", "0xA1", "0x7a"⟩,
        Arg.addressZero], true⟩ _ rfl rfl).2.2.2.2⟩

/-- C3 as stated fails for the third role grant: in `lateGrantWorld` the grant of the
PresalesFactory address on Presale (line 68) is rejected after the deployment of Presale was
confirmed, and `Presale.json` has been written in that run and is on the file system. -/
theorem late_grant_failure_after_write :
    lateGrantWorld.result = Except.error "reverted" ∧
    (⟨Call.addAdmin ⟨"Presale", "0xB2", "0x7a"⟩
      (Arg.address ⟨"PresalesFactory", "0xD4", "0x7a"⟩), false⟩ : Event) ∈ lateGrantWorld.trace ∧
    (⟨Call.deployed ⟨"Presale", "0xB2", "0x7a"⟩, true⟩ : Event) ∈ lateGrantWorld.trace ∧
    deployFile "Presale" = "./deploy/Presale.json" ∧
    (⟨Call.writeFileSync "./deploy/Presale.json" "\x7b\"address\":\"0xB2\",\"deployTransaction\":\"0x7a\"\x7d", true⟩ : Event)
      ∈ lateGrantWorld.trace ∧
    lateGrantWorld.finalFS "./deploy/Presale.json" = some (Node.file "\x7b\"address\":\"0xB2\",\"deployTransaction\":\"0x7a\"\x7d") := by
  refine ⟨rfl, ?_, ?_, by decide, ?_, rfl⟩ <;> decide

theorem deployFile_Airdrop : deployFile "Airdrop" = "./deploy/Airdrop.json" := by decide

theorem deployFile_Presale : deployFile "Presale" = "./deploy/Presale.json" := by decide

/-- C3, amended. For the two role grants with the configured admin (on Airdrop, line 29, and
on Presale, line 42): when the grant fails, the deployment of its target was confirmed and no
write of the deployment file of the target is made in that run.  Hence a write of
`Airdrop.json` implies that the grant on Airdrop succeeded, and a write of `Presale.json`
implies that the grant of the configured admin on Presale succeeded. -/
theorem admin_grant_precedes_file (w : World) (l1 l2 : List Event) (ev : Event)
    (h : w.trace = l1 ++ ev :: l2) :
    (∀ c n v, ev = ⟨Call.addAdmin c (Arg.env n v), false⟩ →
      ⟨Call.deployed c, true⟩ ∈ l1 ∧
      ∀ e ∈ w.trace, e.call.target ≠ some (deployFile c.name)) ∧
    (∀ d, ev.call = Call.writeFileSync "./deploy/Airdrop.json" d →
      ⟨Call.addAdmin (w.contract "Airdrop" 23)
        (Arg.env "DEPLOYER_ADMIN_MAINNET" (w.env.get "DEPLOYER_ADMIN_MAINNET")), true⟩ ∈ l1) ∧
    (∀ d, ev.call = Call.writeFileSync "./deploy/Presale.json" d →
      ⟨Call.addAdmin (w.contract "Presale" 36)
        (Arg.env "DEPLOYER_ADMIN_MAINNET" (w.env.get "DEPLOYER_ADMIN_MAINNET")), true⟩ ∈ l1) := by
  have hsplit := trace_split w (fun pre x =>
      (∀ c, x.envGrantTarget = some c →
        ⟨Call.deployed c, true⟩ ∈ pre ∧
        ∀ e ∈ pre, e.call.target ≠ some (deployFile c.name)) ∧
      (x.target = some "./deploy/Airdrop.json" →
        ⟨Call.addAdmin (w.contract "Airdrop" 23)
          (Arg.env "DEPLOYER_ADMIN_MAINNET" (w.env.get "DEPLOYER_ADMIN_MAINNET")), true⟩ ∈ pre) ∧
      (x.target = some "./deploy/Presale.json" →
        ⟨Call.addAdmin (w.contract "Presale" 36)
          (Arg.env "DEPLOYER_ADMIN_MAINNET" (w.env.get "DEPLOYER_ADMIN_MAINNET")), true⟩ ∈ pre))
      ?_ l1 l2 ev h
  · obtain ⟨⟨h1, h2, h3⟩, _, hlast⟩ := hsplit
    refine ⟨?_, fun d hd => h2 (by rw [hd]; rfl), fun d hd => h3 (by rw [hd]; rfl)⟩
    intro c n v hev
    obtain ⟨hd, hw⟩ := h1 c (by rw [hev]; rfl)
    refine ⟨hd, ?_⟩
    have hl2 : l2 = [] := hlast (by rw [hev])
    intro e he
    rw [h, hl2] at he
    rcases List.mem_append.1 he with he | he
    · exact hw e he
    · rw [List.mem_singleton.1 he, hev]
      simp [Call.target]
  · intro b
    cases b <;>
    · simp only [planHead, planTail, allOk, okEvent, World.contract, List.map, if_true,
        Bool.false_eq_true, if_false, List.append_nil, List.cons_append, List.nil_append]
      simp only [splitsAll, List.cons_append, List.nil_append]
      simp only [Call.envGrantTarget, Call.target, reduceCtorEq, false_implies, implies_true,
        and_true, true_and, Option.some.injEq, String.reduceEq]
      simp [deployFile_Airdrop, deployFile_Presale, Call.target]

/-- In `presaleGrantFailWorld` the grant of line 42 fails and `Presale.json` is never written. -/
theorem admin_grant_precedes_file_witness :
    presaleGrantFailWorld.trace = presaleGrantFailWorld.trace.take 16 ++
      ⟨Call.addAdmin ⟨"Presale", "0xB2", "0x7a"⟩
        (Arg.env "DEPLOYER_ADMIN_MAINNET" (JSValue.str "0xAD")), false⟩ :: [] ∧
    ((⟨Call.deployed ⟨"Presale", "0xB2", "0x7a"⟩, true⟩ : Event)
        ∈ presaleGrantFailWorld.trace.take 16 ∧
      ∀ e ∈ presaleGrantFailWorld.trace, e.call.target ≠ some (deployFile "Presale")) :=
  ⟨rfl, (admin_grant_precedes_file presaleGrantFailWorld (presaleGrantFailWorld.trace.take 16) []
    ⟨Call.addAdmin ⟨"Presale", "0xB2", "0x7a"⟩
      (Arg.env "DEPLOYER_ADMIN_MAINNET" (JSValue.str "0xAD")), false⟩ rfl).1
    ⟨"Presale", "0xB2", "0x7a"⟩ "DEPLOYER_ADMIN_MAINNET" (JSValue.str "0xAD") rfl⟩

/-! ## Failing runs -/

theorem apply_frame (c : Call) (fs : FS) (p : String) (h : c.target ≠ some p) :
    c.apply fs p = fs p := by
  cases c <;> simp [Call.apply, Call.target, FS.mkdir, FS.write] at h ⊢
  · intro hp
    exact absurd hp.symm h
  · intro hp
    exact absurd hp.symm h

/-- Replaying events none of which targets `p` leaves `p` as it was. -/
theorem replay_frame (evs : List Event) (fs : FS) (p : String)
    (h : ∀ e ∈ evs, e.call.target ≠ some p) : replay evs fs p = fs p := by
  induction evs generalizing fs with
  | nil => rfl
  | cons a evs ih =>
    rw [replay_cons, ih _ (fun e he => h e (List.mem_cons_of_mem _ he))]
    cases a.ok
    · simp
    · simpa using apply_frame a.call fs p (h a (List.mem_cons_self _ _))

theorem heal_result (w : World) : w.heal.result = Except.ok () := by
  rw [result_eq, outcome_heal]

theorem heal_trace (w : World) : w.heal.trace = allOk (plan w w.fs) := by
  rw [trace_eq, events_heal]
  rfl

/-- C4. A run of `main` in which a call fails performs exactly the calls of the run without
failure (same environment, same file system, same yielded values) that precede the failing
call, then the failing call, and nothing after it; the file system it leaves is the one those
preceding calls produced, nothing is undone.  In particular, when the deployment of Airdrop
fails, no call creates or overwrites `Presale.json`, `ERC721Factory.json` or
`PresalesFactory.json`, and these paths are as they were before the run. -/
theorem failure_cuts_the_successful_run (w : World) (e : Error)
    (h : w.result = Except.error e) :
    w.heal.result = Except.ok () ∧
    (∃ k c, w.heal.trace.get? k = some ⟨c, true⟩ ∧
      w.trace = w.heal.trace.take k ++ [⟨c, false⟩] ∧
      w.finalFS = replay (w.heal.trace.take k) w.fs) ∧
    (⟨Call.deploy "Airdrop" [], false⟩ ∈ w.trace →
      ∀ p ∈ ["./deploy/Presale.json", "./deploy/ERC721Factory.json",
          "./deploy/PresalesFactory.json"],
        (∀ ev ∈ w.trace, ev.call.target ≠ some p) ∧ w.finalFS p = w.fs p) := by
  refine ⟨heal_result w, ?_, ?_⟩
  · rw [result_eq] at h
    obtain ⟨k, c, h1, h2⟩ := events_cut w _ e h
    refine ⟨k, c, ?_, ?_, ?_⟩
    · rw [heal_trace]; exact h1
    · rw [heal_trace, trace_eq]; exact h2
    · rw [finalFS_eq, heal_trace, trace_eq, h2, replay_append]
      rfl
  · intro hmem p hp
    obtain ⟨l1, l2, hsplit⟩ := List.append_of_mem hmem
    have hs := trace_split w (fun pre x => x = Call.deploy "Airdrop" [] →
        ∀ ev ∈ pre, ∀ q ∈ ["./deploy/Presale.json", "./deploy/ERC721Factory.json",
          "./deploy/PresalesFactory.json"], ev.call.target ≠ some q) ?_ l1 l2 _ hsplit
    · obtain ⟨h1, _, hlast⟩ := hs
      have hl2 : l2 = [] := hlast rfl
      have hall : ∀ ev ∈ w.trace, ev.call.target ≠ some p := by
        intro ev hev
        rw [hsplit, hl2] at hev
        rcases List.mem_append.1 hev with hev | hev
        · exact h1 rfl ev hev p hp
        · rw [List.mem_singleton.1 hev]
          simp [Call.target]
      exact ⟨hall, by rw [finalFS_eq]; exact replay_frame _ _ _ hall⟩
    · intro b
      cases b <;>
      · simp only [planHead, planTail, allOk, okEvent, World.contract, List.map, if_true,
          Bool.false_eq_true, if_false, List.append_nil, List.cons_append, List.nil_append]
        simp only [splitsAll, List.cons_append, List.nil_append]
        simp only [reduceCtorEq, false_implies, implies_true, and_true, true_and,
          Call.deploy.injEq, String.reduceEq, false_and]
        simp [Call.target]

/-- The run `airdropFailWorld` fails and is a cut of the run without failure. -/
theorem failure_cuts_the_successful_run_witness :
    airdropFailWorld.result = Except.error "insufficient funds" ∧
    (∃ k c, airdropFailWorld.heal.trace.get? k = some ⟨c, true⟩ ∧
      airdropFailWorld.trace = airdropFailWorld.heal.trace.take k ++ [⟨c, false⟩] ∧
      airdropFailWorld.finalFS = replay (airdropFailWorld.heal.trace.take k) airdropFailWorld.fs) :=
  ⟨rfl, (failure_cuts_the_successful_run airdropFailWorld "insufficient funds" rfl).2.1⟩

/-! ## Exit code -/

/-- C5. The promise of `main().catch(...)` is always fulfilled, that is, the handler does not
rethrow.  The exit status of the process is 0 exactly when `main` completes, which is exactly
when every call of the run returned normally, and it is 1 exactly when `main` rejects, which
is exactly when some call of the run threw or rejected. -/
theorem exit_code_reflects_failure (w : World) :
    (script w).1 = Except.ok () ∧
    (exitStatus (script w).2 = 0 ↔ w.result = Except.ok ()) ∧
    (exitStatus (script w).2 = 1 ↔ ∃ e, w.result = Except.error e) ∧
    (exitStatus (script w).2 = 0 ↔ ∀ ev ∈ w.trace, ev.ok = true) ∧
    (exitStatus (script w).2 = 1 ↔ ∃ ev ∈ w.trace, ev.ok = false) := by
  have hall : w.result = Except.ok () ↔ ∀ ev ∈ w.trace, ev.ok = true := by
    rw [result_eq, trace_eq]
    exact outcome_ok_iff w _
  have h0 : exitStatus (script w).2 = 0 ↔ w.result = Except.ok () := by
    unfold script World.result exitStatus
    rcases hm : main w w.init with ⟨r, s1⟩
    have hs1 : s1.exitCode = none := by
      have := congrArg (fun x => x.2.exitCode) hm
      simpa [main_eq_exec, exec_eq, World.init] using this.symm
    cases r <;> simp [hs1]
  have h1 : exitStatus (script w).2 = 1 ↔ ∃ e, w.result = Except.error e := by
    unfold script World.result exitStatus
    rcases hm : main w w.init with ⟨r, s1⟩
    have hs1 : s1.exitCode = none := by
      have := congrArg (fun x => x.2.exitCode) hm
      simpa [main_eq_exec, exec_eq, World.init] using this.symm
    cases r <;> simp [hs1]
  refine ⟨?_, h0, h1, h0.trans hall, ?_⟩
  · unfold script
    rcases main w w.init with ⟨r, s1⟩
    cases r <;> rfl
  · rw [h1]
    constructor
    · rintro ⟨e, he⟩
      by_contra hne
      have : w.result = Except.ok () := hall.2 (fun ev hev => by
        by_contra hf
        exact hne ⟨ev, hev, by simpa using hf⟩)
      rw [this] at he
      cases he
    · rintro ⟨ev, hev, hf⟩
      cases hr : w.result with
      | error e => exact ⟨e, rfl⟩
      | ok u =>
        have := hall.1 (by rw [hr]) ev hev
        rw [hf] at this
        cases this

/-! ## Files of the successful run, role grants, environment, output directory -/

theorem quoteChar_length_pos (c : Char) : 0 < (JSON.quoteChar c).length := by
  unfold JSON.quoteChar
  split_ifs
  · decide
  · decide
  · decide
  · decide
  · decide
  · decide
  · decide
  · rw [String.length_append]
    have : ("\\u00" : String).length = 4 := by decide
    omega
  · simp [String.singleton, String.length]

/-- The address property of the serialization is the empty string literal exactly when the
address is empty. -/
theorem quote_eq_empty_iff (s : String) : JSON.quote s = "\"\"" ↔ s = "" := by
  constructor
  · intro h
    obtain ⟨data⟩ := s
    cases data with
    | nil => rfl
    | cons c cs =>
      have hl := congrArg String.length h
      have hc := quoteChar_length_pos c
      simp only [JSON.quote, JSON.escape, String.length_append] at hl
      have h1 : ("\"" : String).length = 1 := by decide
      have h2 : ("\"\"" : String).length = 2 := by decide
      omega
  · intro h
    rw [h]
    decide

/-- The text `JSON.stringify` yields for a contract object. -/
theorem stringify_eq (c : Contract) :
    JSON.stringify c = "\x7b\"address\":" ++ JSON.quote c.address ++
      ",\"deployTransaction\":" ++ JSON.quote c.deployTransaction ++ "\x7d" := by
  have h1 : JSON.quote "address" = "\"address\"" := by decide
  have h2 : JSON.quote "deployTransaction" = "\"deployTransaction\"" := by decide
  simp only [JSON.stringify, JSON.object, Contract.properties, JSON.members, JSON.member, h1, h2]
  apply String.ext
  simp [String.data_append]

/-- C1 as stated fails: in `emptyAddressWorld` every call succeeds and the four files are
written, each holding the serialization of its contract object, whose address property is the
empty string. -/
theorem empty_address_is_written :
    emptyAddressWorld.result = Except.ok () ∧
    (∀ ev ∈ emptyAddressWorld.trace, ev.ok = true) ∧
    emptyAddressWorld.trace.filterMap Event.written =
      [ ("./deploy/Airdrop.json", "\x7b\"address\":\"\",\"deployTransaction\":\"0x7a\"\x7d"),
        ("./deploy/Presale.json", "\x7b\"address\":\"\",\"deployTransaction\":\"0x7a\"\x7d"),
        ("./deploy/ERC721Factory.json", "\x7b\"address\":\"\",\"deployTransaction\":\"0x7a\"\x7d"),
        ("./deploy/PresalesFactory.json",
          "\x7b\"address\":\"\",\"deployTransaction\":\"0x7a\"\x7d") ] ∧
    (emptyAddressWorld.contract "Airdrop" 23).address = "" ∧
    emptyAddressWorld.finalFS "./deploy/Airdrop.json" =
      some (Node.file "\x7b\"address\":\"\",\"deployTransaction\":\"0x7a\"\x7d") := by
  refine ⟨rfl, by decide, rfl, rfl, rfl⟩

/-- C1, amended. In a run of `main` that completes, the file writes of the run are exactly
four, in this order and each path once: `./deploy/Airdrop.json`, `./deploy/Presale.json`,
`./deploy/ERC721Factory.json`, `./deploy/PresalesFactory.json`, and no other call creates or
overwrites a path except the creation of `./deploy`.  The data of each file is
`JSON.stringify` of the contract object that the `deploy` call for the contract of that name
yielded and whose `deployed()` was awaited in the run; that text has an address property
that holds the address the `deploy` call yielded, as yielded: `main` does not check it, and
the property is the empty string exactly when that address is empty.  The file holds that
data when the run ends. -/
theorem successful_run_writes_four_files (w : World) (h : w.result = Except.ok ()) :
    w.trace.filterMap Event.written =
      [ ("./deploy/Airdrop.json", JSON.stringify (w.contract "Airdrop" 23)),
        ("./deploy/Presale.json", JSON.stringify (w.contract "Presale" 36)),
        ("./deploy/ERC721Factory.json", JSON.stringify (w.contract "ERC721Factory" 49)),
        ("./deploy/PresalesFactory.json", JSON.stringify (w.contract "PresalesFactory" 62)) ] ∧
    (∀ ev ∈ w.trace, ∀ p, ev.call.target = some p →
      ev.ok = true ∧ (p = "./deploy" ∨ p ∈ deployFiles)) ∧
    ∀ t ∈ [ ("Airdrop", 23, "./deploy/Airdrop.json"), ("Presale", 36, "./deploy/Presale.json"),
            ("ERC721Factory", 49, "./deploy/ERC721Factory.json"),
            ("PresalesFactory", 62, "./deploy/PresalesFactory.json") ],
      ⟨Call.deploy t.1
        (if t.1 = "Presale" then
          [Arg.env "BENEFICIARY_PRESALE_MAINNET" (w.env.get "BENEFICIARY_PRESALE_MAINNET")]
        else if t.1 = "ERC721Factory" then
          [Arg.address (w.contract "Presale" 36), Arg.address (w.contract "Airdrop" 23),
            Arg.addressZero]
        else []), true⟩ ∈ w.trace ∧
      ⟨Call.deployed (w.contract t.1 t.2.1), true⟩ ∈ w.trace ∧
      (w.contract t.1 t.2.1).name = t.1 ∧
      (w.contract t.1 t.2.1).address = w.address t.2.1 ∧
      JSON.stringify (w.contract t.1 t.2.1) =
        "\x7b\"address\":" ++ JSON.quote (w.address t.2.1) ++
          ",\"deployTransaction\":" ++ JSON.quote (w.deployTransaction t.2.1) ++ "\x7d" ∧
      (JSON.quote (w.address t.2.1) = "\"\"" ↔ w.address t.2.1 = "") ∧
      w.finalFS t.2.2 = some (Node.file (JSON.stringify (w.contract t.1 t.2.1))) := by
  rw [finalFS_eq, trace_of_ok w h]
  refine ⟨?_, ?_, ?_⟩
  · cases hb : w.fs.existsSync "./deploy" <;>
      simp [plan, planHead, planTail, allOk, okEvent, hb, Event.written]
  · cases hb : w.fs.existsSync "./deploy" <;>
      simp [plan, planHead, planTail, allOk, okEvent, hb, Call.target, deployFiles]
  · cases hb : w.fs.existsSync "./deploy" <;>
      simp [plan, planHead, planTail, allOk, okEvent, hb, replay, Call.apply, FS.write,
        FS.mkdir, World.contract, stringify_eq, quote_eq_empty_iff]

/-- The run `happyWorld` completes and writes the four files with the addresses yielded. -/
theorem successful_run_writes_four_files_witness :
    happyWorld.result = Except.ok () ∧
    happyWorld.trace.filterMap Event.written =
      [ ("./deploy/Airdrop.json", "\x7b\"address\":\"0xA1\",\"deployTransaction\":\"0x7a\"\x7d"),
        ("./deploy/Presale.json", "\x7b\"address\":\"0xB2\",\"deployTransaction\":\"0x7a\"\x7d"),
        ("./deploy/ERC721Factory.json",
          "\x7b\"address\":\"0xC3\",\"deployTransaction\":\"0x7a\"\x7d"),
        ("./deploy/PresalesFactory.json",
          "\x7b\"address\":\"0xD4\",\"deployTransaction\":\"0x7a\"\x7d") ] :=
  ⟨rfl, (successful_run_writes_four_files happyWorld rfl).1⟩

/-- Every event of a run is the event of a step of the sequence. -/
theorem events_mem (w : World) (steps : List Step) (ev : Event) (h : ev ∈ events w steps) :
    ∃ st ∈ steps, st.call = ev.call := by
  induction steps with
  | nil => simp [events] at h
  | cons st rest ih =>
    simp only [events] at h
    cases hf : st.line.bind w.fail with
    | none =>
      rw [hf] at h
      rcases List.mem_cons.1 h with rfl | h
      · exact ⟨st, List.mem_cons_self _ _, rfl⟩
      · obtain ⟨st1, h1, h2⟩ := ih h
        exact ⟨st1, List.mem_cons_of_mem _ h1, h2⟩
    | some e =>
      rw [hf] at h
      rw [List.mem_singleton.1 h]
      exact ⟨st, List.mem_cons_self _ _, rfl⟩

/-- A sequence fails only with the error of a call that the world makes fail. -/
theorem outcome_error (w : World) (steps : List Step) (e : Error)
    (h : outcome w steps = Except.error e) : ∃ l, w.fail l = some e := by
  induction steps with
  | nil => simp [outcome] at h
  | cons st rest ih =>
    simp only [outcome] at h
    cases hf : st.line.bind w.fail with
    | none =>
      rw [hf] at h
      exact ih h
    | some e1 =>
      rw [hf] at h
      cases hl : st.line with
      | none => simp [hl] at hf
      | some l =>
        refine ⟨l, ?_⟩
        simp only [hl, Option.bind] at hf
        rw [hf]
        simpa using h

/-- Every call of a run is a call of the statement sequence of `main`. -/
theorem trace_mem (w : World) (ev : Event) (h : ev ∈ w.trace) :
    ∃ b : Bool, ∃ st ∈ planHead b ++ planTail w, st.call = ev.call := by
  rw [trace_eq] at h
  exact ⟨_, events_mem w _ ev h⟩

/-- C8, as the code has it. No run of `main` awaits the confirmation of a transaction that
`addAdmin` resolved with: the trace holds no `wait` call.  In the run `happyWorld`, which
completes, each role grant is directly followed by the next statement: the log line and the
write of `Airdrop.json`, the log line and the write of `Presale.json`, and the final log
line. -/
theorem role_grant_not_awaited :
    (∀ w : World, ∀ ev ∈ w.trace, ∀ tx, ev.call ≠ Call.wait tx) ∧
    happyWorld.result = Except.ok () ∧
    (happyWorld.trace.drop 8).take 3 =
      [ ⟨Call.addAdmin ⟨"Airdrop", "0xA1", "0x7a"⟩
          (Arg.env "DEPLOYER_ADMIN_MAINNET" (JSValue.str "0xAD")), true⟩,
        ⟨Call.log "Admin added in Airdrop!", true⟩,
        ⟨Call.writeFileSync "./deploy/Airdrop.json" "\x7b\"address\":\"0xA1\",\"deployTransaction\":\"0x7a\"\x7d", true⟩ ] ∧
    (happyWorld.trace.drop 16).take 3 =
      [ ⟨Call.addAdmin ⟨"Presale", "0xB2", "0x7a"⟩
          (Arg.env "DEPLOYER_ADMIN_MAINNET" (JSValue.str "0xAD")), true⟩,
        ⟨Call.log "Admin added in Presale!", true⟩,
        ⟨Call.writeFileSync "./deploy/Presale.json" "\x7b\"address\":\"0xB2\",\"deployTransaction\":\"0x7a\"\x7d", true⟩ ] ∧
    happyWorld.trace.drop 29 =
      [ ⟨Call.addAdmin ⟨"Presale", "0xB2", "0x7a"⟩
          (Arg.address ⟨"PresalesFactory", "0xD4", "0x7a"⟩), true⟩,
        ⟨Call.log "Completed deploy!", true⟩ ] := by
  refine ⟨?_, rfl, rfl, rfl, rfl⟩
  intro w ev hev tx hcall
  obtain ⟨b, st, hst, hc⟩ := trace_mem w ev hev
  have key : ∀ st ∈ planHead b ++ planTail w, ∀ tx, st.call ≠ Call.wait tx := by
    cases b <;> simp [planHead, planTail]
  exact key st hst tx (hc.trans hcall)

theorem planTail_targets (w : World) :
    ∀ st ∈ planTail w, ∀ p, st.call.target = some p → p ∈ deployFiles := by
  simp [planTail, Call.target, deployFiles]

theorem planTail_no_mkdir (w : World) :
    ∀ st ∈ planTail w, ∀ p, st.call ≠ Call.mkdirSync p := by
  simp [planTail]

theorem deploy_dir_not_file : "./deploy" ∉ deployFiles := by decide

/-- C6. When `./deploy` exists as a directory at the start, no run of `main` calls
`mkdirSync`, every path a call of the run creates or overwrites is one of the four deployment
files, and every other path names the same thing with the same content at every point of the
run and at its end.  When `./deploy` is absent, `mkdirSync` is called on it exactly once, as
the first call after the existence check and so before any deployment call; when that call
throws nothing follows it, and when it returns `./deploy` is a directory from then on. -/
theorem output_directory_frame (w : World) :
    (w.fs "./deploy" = some Node.dir →
      (∀ ev ∈ w.trace, ∀ p, ev.call ≠ Call.mkdirSync p) ∧
      (∀ ev ∈ w.trace, ∀ p, ev.call.target = some p → p ∈ deployFiles) ∧
      (∀ p, p ∉ deployFiles → ∀ k, replay (w.trace.take k) w.fs p = w.fs p) ∧
      (∀ p, p ∉ deployFiles → w.finalFS p = w.fs p)) ∧
    (w.fs "./deploy" = none →
      ∃ ok rest, w.trace = ⟨Call.log "Start deploy...", true⟩ ::
          ⟨Call.existsSync "./deploy", true⟩ :: ⟨Call.mkdirSync "./deploy", ok⟩ :: rest ∧
        (∀ ev ∈ rest, ∀ p, ev.call ≠ Call.mkdirSync p) ∧
        (ok = false → rest = []) ∧
        (ok = true → ∀ k, 3 ≤ k →
          replay (w.trace.take k) w.fs "./deploy" = some Node.dir)) := by
  constructor
  · intro hdir
    have hex : w.fs.existsSync "./deploy" = true := by simp [FS.existsSync, hdir]
    have hplan : plan w w.fs = ⟨none, Call.log "Start deploy..."⟩ ::
        ⟨none, Call.existsSync "./deploy"⟩ :: planTail w := by
      simp [plan, planHead, hex]
    have hmem : ∀ ev ∈ w.trace, ev.call = Call.log "Start deploy..." ∨
        ev.call = Call.existsSync "./deploy" ∨ ∃ st ∈ planTail w, st.call = ev.call := by
      intro ev hev
      rw [trace_eq, hplan] at hev
      obtain ⟨st, hst, hc⟩ := events_mem w _ ev hev
      rcases List.mem_cons.1 hst with rfl | hst
      · exact Or.inl hc.symm
      · rcases List.mem_cons.1 hst with rfl | hst
        · exact Or.inr (Or.inl hc.symm)
        · exact Or.inr (Or.inr ⟨st, hst, hc⟩)
    have htarget : ∀ ev ∈ w.trace, ∀ p, ev.call.target = some p → p ∈ deployFiles := by
      intro ev hev p hp
      rcases hmem ev hev with h | h | ⟨st, hst, hc⟩
      · rw [h] at hp; simp [Call.target] at hp
      · rw [h] at hp; simp [Call.target] at hp
      · rw [← hc] at hp
        exact planTail_targets w st hst p hp
    refine ⟨?_, htarget, ?_, ?_⟩
    · intro ev hev p hp
      rcases hmem ev hev with h | h | ⟨st, hst, hc⟩
      · rw [h] at hp; cases hp
      · rw [h] at hp; cases hp
      · rw [← hc] at hp
        exact planTail_no_mkdir w st hst p hp
    · intro p hp k
      apply replay_frame
      intro e he htp
      exact hp (htarget e (List.mem_of_mem_take he) p htp)
    · intro p hp
      rw [finalFS_eq]
      apply replay_frame
      intro e he htp
      exact hp (htarget e he p htp)
  · intro habs
    have hex : w.fs.existsSync "./deploy" = false := by simp [FS.existsSync, habs]
    have hplan : plan w w.fs = ⟨none, Call.log "Start deploy..."⟩ ::
        ⟨none, Call.existsSync "./deploy"⟩ :: ⟨some 17, Call.mkdirSync "./deploy"⟩ ::
        planTail w := by
      simp [plan, planHead, hex]
    cases hf : w.fail 17 with
    | some e =>
      refine ⟨false, [], ?_, by simp, by simp, by simp⟩
      rw [trace_eq, hplan]
      simp [events, Option.bind, hf]
    | none =>
      have htr : w.trace = ⟨Call.log "Start deploy...", true⟩ ::
          ⟨Call.existsSync "./deploy", true⟩ :: ⟨Call.mkdirSync "./deploy", true⟩ ::
          events w (planTail w) := by
        rw [trace_eq, hplan]
        simp [events, Option.bind, hf]
      refine ⟨true, events w (planTail w), htr, ?_, by simp, ?_⟩
      · intro ev hev p hp
        obtain ⟨st, hst, hc⟩ := events_mem w _ ev hev
        rw [← hc] at hp
        exact planTail_no_mkdir w st hst p hp
      · intro _ k hk
        obtain ⟨j, rfl⟩ := Nat.exists_eq_add_of_le hk
        rw [htr]
        have htake : List.take (3 + j) (⟨Call.log "Start deploy...", true⟩ ::
            ⟨Call.existsSync "./deploy", true⟩ :: ⟨Call.mkdirSync "./deploy", true⟩ ::
            events w (planTail w)) = ⟨Call.log "Start deploy...", true⟩ ::
            ⟨Call.existsSync "./deploy", true⟩ :: ⟨Call.mkdirSync "./deploy", true⟩ ::
            (events w (planTail w)).take j := by
          rw [Nat.add_comm]
          rfl
        rw [htake]
        simp only [replay_cons, if_true, Call.apply]
        rw [replay_frame]
        · simp [FS.mkdir]
        · intro e he htp
          obtain ⟨st, hst, hc⟩ := events_mem w _ e (List.mem_of_mem_take he)
          rw [← hc] at htp
          exact deploy_dir_not_file (planTail_targets w st hst _ htp)

/-- In `existingDirWorld` the directory exists and a foreign file is kept while `Airdrop.json` is
overwritten; in `happyWorld` the directory is absent and is created. -/
theorem output_directory_frame_witness :
    existingDirWorld.fs "./deploy" = some Node.dir ∧
    existingDirWorld.finalFS "./deploy/notes.txt" = some (Node.file "keep") ∧
    existingDirWorld.finalFS "./deploy/Airdrop.json" = some (Node.file "\x7b\"address\":\"0xA1\",\"deployTransaction\":\"0x7a\"\x7d") ∧
    happyWorld.fs "./deploy" = none ∧
    ∃ ok rest, happyWorld.trace = ⟨Call.log "Start deploy...", true⟩ ::
        ⟨Call.existsSync "./deploy", true⟩ :: ⟨Call.mkdirSync "./deploy", ok⟩ :: rest ∧
      (∀ ev ∈ rest, ∀ p, ev.call ≠ Call.mkdirSync p) ∧
      (ok = false → rest = []) ∧
      (ok = true → ∀ k, 3 ≤ k →
        replay (happyWorld.trace.take k) happyWorld.fs "./deploy" = some Node.dir) :=
  ⟨rfl,
    ((output_directory_frame existingDirWorld).1 rfl).2.2.2 "./deploy/notes.txt" (by decide),
    rfl, rfl, (output_directory_frame happyWorld).2 rfl⟩

theorem get_absent (env : Env) (k : String) (h : env k = none) :
    env.get k = JSValue.undefined := by
  simp [Env.get, h]

/-- C9. For every environment, `main` validates nothing and fails only with the error of a
failing collaborator call: when no call fails it completes.  In every run the `deploy` call
for Presale has the single argument `process.env.BENEFICIARY_PRESALE_MAINNET`, with the value
looked up (`undefined` when absent), and every role grant whose argument is read from the
environment reads `DEPLOYER_ADMIN_MAINNET` and passes the value looked up, the same for
Airdrop and Presale; in a run that completes these three calls are made.  The configuration
object is built for every environment, each field that reads a variable holding the value
looked up, which is `undefined` when the variable is absent. -/
theorem environment_passed_through (w : World) :
    ((∀ l, w.fail l = none) → w.result = Except.ok ()) ∧
    (∀ e, w.result = Except.error e → ∃ l, w.fail l = some e) ∧
    (∀ ev ∈ w.trace, ∀ args, ev.call = Call.deploy "Presale" args →
      args = [Arg.env "BENEFICIARY_PRESALE_MAINNET" (w.env.get "BENEFICIARY_PRESALE_MAINNET")] ∧
      args.map Arg.value = [w.env.get "BENEFICIARY_PRESALE_MAINNET"]) ∧
    (∀ ev ∈ w.trace, ∀ c n v, ev.call = Call.addAdmin c (Arg.env n v) →
      n = "DEPLOYER_ADMIN_MAINNET" ∧ v = w.env.get "DEPLOYER_ADMIN_MAINNET" ∧
      (Arg.env n v).value = w.env.get "DEPLOYER_ADMIN_MAINNET" ∧
      (c = w.contract "Airdrop" 23 ∨ c = w.contract "Presale" 36)) ∧
    (w.result = Except.ok () →
      ⟨Call.deploy "Presale"
        [Arg.env "BENEFICIARY_PRESALE_MAINNET" (w.env.get "BENEFICIARY_PRESALE_MAINNET")],
        true⟩ ∈ w.trace ∧
      ⟨Call.addAdmin (w.contract "Airdrop" 23)
        (Arg.env "DEPLOYER_ADMIN_MAINNET" (w.env.get "DEPLOYER_ADMIN_MAINNET")), true⟩
        ∈ w.trace ∧
      ⟨Call.addAdmin (w.contract "Presale" 36)
        (Arg.env "DEPLOYER_ADMIN_MAINNET" (w.env.get "DEPLOYER_ADMIN_MAINNET")), true⟩
        ∈ w.trace) ∧
    (∀ k, w.env k = none → w.env.get k = JSValue.undefined) ∧
    (hardhatConfig w.env).etherscan.apiKey = w.env.get "API_KEY" ∧
    (hardhatConfig w.env).network "goerli" = some
      { blockGasLimit := none
        urls := some { apiURL := w.env.get "CONFIG_API_URL_GOERLI"
                       browserURL := w.env.get "CONFIG_BROWSER_URL_GOERLI" }
        url := some (w.env.get "CONFIG_URL_GOERLI")
        accounts := some [w.env.get "METAMASK_PRIVATE_KEY"] } ∧
    (hardhatConfig w.env).network "sepolia" = some
      { blockGasLimit := none
        urls := some { apiURL := w.env.get "CONFIG_API_URL_SEPOLIA"
                       browserURL := w.env.get "CONFIG_BROWSER_URL_SEPOLIA" }
        url := some (w.env.get "CONFIG_URL_SEPOLIA")
        accounts := some [w.env.get "METAMASK_ACCOUNT_deploy_private"] } ∧
    (hardhatConfig w.env).network "mainnet" = some
      { blockGasLimit := none
        urls := some { apiURL := w.env.get "CONFIG_API_URL_MAINNET"
                       browserURL := w.env.get "CONFIG_BROWSER_URL_MAINNET" }
        url := some (w.env.get "CONFIG_URL_MAINNET")
        accounts := some [w.env.get "METAMASK_ACCOUNT_deploy_private"] } ∧
    (∀ n ∈ ["bsctest", "bsc"], ∃ net, (hardhatConfig w.env).network n = some net ∧
      net.accounts = some [w.env.get "METAMASK_ACCOUNT_deploy_private"]) ∧
    (hardhatConfig w.env).networks.map Prod.fst =
      ["hardhat", "goerli", "sepolia", "mainnet", "bsctest", "bsc", "local"] := by
  refine ⟨?_, ?_, ?_, ?_, ?_, fun k hk => get_absent _ k hk, rfl, ?_, ?_, ?_, ?_, rfl⟩
  · intro hall
    rw [result_eq]
    have : w = w.heal := by
      cases w
      simp only [World.heal, World.mk.injEq, true_and, and_true]
      funext l
      exact hall l
    rw [this]
    exact outcome_heal _ _
  · intro e he
    rw [result_eq] at he
    exact outcome_error w _ e he
  · intro ev hev args hcall
    obtain ⟨b, st, hst, hc⟩ := trace_mem w ev hev
    have key : ∀ st ∈ planHead b ++ planTail w, ∀ args, st.call = Call.deploy "Presale" args →
        args = [Arg.env "BENEFICIARY_PRESALE_MAINNET" (w.env.get "BENEFICIARY_PRESALE_MAINNET")] ∧
        args.map Arg.value = [w.env.get "BENEFICIARY_PRESALE_MAINNET"] := by
      cases b <;> simp [planHead, planTail, Arg.value]
    exact key st hst args (hc.trans hcall)
  · intro ev hev c n v hcall
    obtain ⟨b, st, hst, hc⟩ := trace_mem w ev hev
    have key : ∀ st ∈ planHead b ++ planTail w, ∀ c n v, st.call = Call.addAdmin c (Arg.env n v) →
        n = "DEPLOYER_ADMIN_MAINNET" ∧ v = w.env.get "DEPLOYER_ADMIN_MAINNET" ∧
        (Arg.env n v).value = w.env.get "DEPLOYER_ADMIN_MAINNET" ∧
        (c = w.contract "Airdrop" 23 ∨ c = w.contract "Presale" 36) := by
      cases b <;> simp [planHead, planTail, Arg.value]
    exact key st hst c n v (hc.trans hcall)
  · intro hok
    rw [trace_of_ok w hok]
    cases hb : w.fs.existsSync "./deploy" <;>
      simp [plan, planHead, planTail, allOk, okEvent, hb]
  · simp [HardhatUserConfig.network, hardhatConfig]
  · simp [HardhatUserConfig.network, hardhatConfig]
  · simp [HardhatUserConfig.network, hardhatConfig]
  · simp [HardhatUserConfig.network, hardhatConfig]

/-- In `bareWorld` no variable is set, the run completes and `undefined` is passed on. -/
theorem environment_passed_through_witness :
    bareWorld.env "BENEFICIARY_PRESALE_MAINNET" = none ∧
    bareWorld.env "DEPLOYER_ADMIN_MAINNET" = none ∧
    bareWorld.result = Except.ok () ∧
    (⟨Call.deploy "Presale" [Arg.env "BENEFICIARY_PRESALE_MAINNET" JSValue.undefined], true⟩ :
      Event) ∈ bareWorld.trace ∧
    (⟨Call.addAdmin ⟨"Airdrop", "0xA1", "0x7a"⟩
      (Arg.env "DEPLOYER_ADMIN_MAINNET" JSValue.undefined), true⟩ : Event) ∈ bareWorld.trace ∧
    (⟨Call.addAdmin ⟨"Presale", "0xB2", "0x7a"⟩
      (Arg.env "DEPLOYER_ADMIN_MAINNET" JSValue.undefined), true⟩ : Event) ∈ bareWorld.trace ∧
    (hardhatConfig bareWorld.env).etherscan.apiKey = JSValue.undefined :=
  ⟨rfl, rfl, (environment_passed_through bareWorld).1 (fun _ => rfl),
    ((environment_passed_through bareWorld).2.2.2.2.1 rfl).1,
    ((environment_passed_through bareWorld).2.2.2.2.1 rfl).2.1,
    ((environment_passed_through bareWorld).2.2.2.2.1 rfl).2.2,
    (environment_passed_through bareWorld).2.2.2.2.2.2.1⟩

end Deploy
